import Mathlib

/-!
# Verification of the GFF statistics aggregator

Shallow embedding of `src/gff_stats.py` (`compute_stats_from_gff`): a
single-pass streaming aggregator over the lines of a GFF file, producing a
statistics report.  Python dictionaries are modelled as insertion-ordered
association lists with unique keys (`alIncr` updates the first matching key or
appends a fresh one, exactly like `defaultdict.__setitem__`), Python `int`s as
`Int`, and the float divisions `length_sums[k] / counts[k]` and
`100 * count / total_strands` followed by `round` as exact rational arithmetic
with round-half-to-even (`round` in Python rounds halves to even).  Reading the
file is modelled by handing the aggregator the list of its lines.

The string primitives the loop uses (`str.strip`, `str.split("\t")`,
`startswith("#")`, `int(...)`) are given structurally recursive models over
the line's character list, so every definition evaluates by kernel reduction.
-/

namespace GffStats

/-- The characters removed by Python's `str.strip()` (ASCII whitespace). -/
def pyIsSpace (c : Char) : Bool :=
  c = ' ' ∨ c = '\t' ∨ c = '\n' ∨ c = '\r' ∨ c = '\x0b' ∨ c = '\x0c'

/-- Python's `line.strip()`: remove leading and trailing whitespace. -/
def pyStrip (cs : List Char) : List Char :=
  ((cs.dropWhile pyIsSpace).reverse.dropWhile pyIsSpace).reverse

/-- Python's `line.split("\t")`: the empty string splits to `[""]`, and every
tab, including adjacent ones, opens a new (possibly empty) field. -/
def splitTab : List Char → List (List Char)
  | [] => [[]]
  | c :: rest =>
      match splitTab rest with
      | [] => [[]]
      | g :: gs => if c = '\t' then [] :: g :: gs else (c :: g) :: gs

/-- Value of an ASCII digit string (used by `pyToInt`; callers guarantee all
characters are digits). -/
def digitsToNat (cs : List Char) : Nat :=
  cs.foldl (fun n c => 10 * n + (c.toNat - 48)) 0

/-- Model of Python `int(s)`: optional surrounding whitespace, one optional
sign, then at least one ASCII digit; anything else raises `ValueError`,
modelled as `none`. -/
def pyToInt (cs : List Char) : Option Int :=
  let t := pyStrip cs
  let core := match t with
    | '-' :: rest => rest
    | '+' :: rest => rest
    | _ => t
  if core ≠ [] ∧ core.all Char.isDigit then
    some (match t with
      | '-' :: _ => -(digitsToNat core : Int)
      | _ => (digitsToNat core : Int))
  else
    none

/-- First value stored under key `k`, Python's `d.get(k)`. -/
def alFind? {α : Type} : List (String × α) → String → Option α
  | [], _ => none
  | p :: rest, k => if p.1 = k then some p.2 else alFind? rest k

/-- Python's `d.get(k, 0)` / `defaultdict(int)` read. -/
def alGet (d : List (String × Int)) (k : String) : Int :=
  (alFind? d k).getD 0

/-- Python's `d[k] += v` on a `defaultdict(int)`: update the entry for `k` in
place, or append `(k, v)` if `k` is new (dict keys stay unique and keep
insertion order). -/
def alIncr : List (String × Int) → String → Int → List (String × Int)
  | [], k, v => [(k, v)]
  | p :: rest, k, v =>
      if p.1 = k then (p.1, p.2 + v) :: rest else p :: alIncr rest k v

/-- Python's `d.setdefault(k, v)`: insert `(k, v)` only when `k` is absent. -/
def alSetdefault : List (String × Int) → String → Int → List (String × Int)
  | [], k, v => [(k, v)]
  | p :: rest, k, v =>
      if p.1 = k then p :: rest else p :: alSetdefault rest k v

/-- The keys of a dict, in insertion order. -/
def alKeys {α : Type} (d : List (String × α)) : List String :=
  d.map Prod.fst

/-- `sum(d.values())`. -/
def alValuesSum (d : List (String × Int)) : Int :=
  (d.map Prod.snd).sum

/-- The four fields of a GFF line that the aggregator consumes
(`feature_type = cols[2]`, `start = int(cols[3])`, `stop = int(cols[4])`
— named `end` in the source, a Lean keyword — and `strand = cols[6]`). -/
structure Record where
  feature_type : String
  start : Int
  stop : Int
  strand : String
  deriving Repr, DecidableEq

/-- length = end - start + 1 -/
def recordLength (r : Record) : Int :=
  r.stop - r.start + 1

/-- The mutable accumulation state of `compute_stats_from_gff`:
`total`, `counts`, `length_sums`, `strand_counts`. -/
structure AggState where
  total : Int
  counts : List (String × Int)
  length_sums : List (String × Int)
  strand_counts : List (String × Int)
  deriving Repr, DecidableEq

/-- `total = 0` and the three empty `defaultdict(int)`s. -/
def initState : AggState := ⟨0, [], [], []⟩

/-- Python truthiness of the `filter_type : str | None` argument:
`None` and the empty string are falsy, so only a non-empty string activates
the filter (`if filter_type and ...`, `if filter_type: result[...] = ...`). -/
def filterActive : Option String → Bool
  | none => false
  | some s => s ≠ ""

/-- One iteration of the loop body of `compute_stats_from_gff` up to the point
where a record is accepted: strip the line, drop blank and `#` lines, split on
tabs, require at least 9 columns, apply the optional category filter
(`if filter_type and feature_type != filter_type: continue`), and parse
`start`/`end` as integers (`except ValueError: continue`).  Returns the
accepted record, or `none` when the line is skipped. -/
def parseAccepted (filter_type : Option String) (raw : String) : Option Record :=
  let line := pyStrip raw.data
  if line = [] ∨ line.headD ' ' = '#' then none
  else
    let cols := splitTab line
    if cols.length < 9 then none
    else
      let feature_type := String.mk (cols.getD 2 [])
      if filterActive filter_type ∧ feature_type ≠ filter_type.getD "" then none
      else
        match pyToInt (cols.getD 3 []), pyToInt (cols.getD 4 []) with
        | some s, some e => some ⟨feature_type, s, e, String.mk (cols.getD 6 [])⟩
        | _, _ => none

/-- The counter updates performed for an accepted record:
`total += 1`, `counts[feature_type] += 1`,
`length_sums[feature_type] += length`, and the strand tally
(`strand_counts[strand] += 1` when the strand is `+` or `-`, otherwise
`strand_counts.setdefault(".", 0)`). -/
def applyRecord (st : AggState) (r : Record) : AggState :=
  { total := st.total + 1
    counts := alIncr st.counts r.feature_type 1
    length_sums := alIncr st.length_sums r.feature_type (recordLength r)
    strand_counts :=
      if r.strand = "+" ∨ r.strand = "-" then
        alIncr st.strand_counts r.strand 1
      else
        alSetdefault st.strand_counts "." 0 }

/-- One full iteration of the loop of `compute_stats_from_gff` on one raw
line: either the line is skipped and the state is unchanged, or the accepted
record's counters are applied.  Total — absorbing the `ValueError` is inside
`parseAccepted` — so ingestion never raises to the caller. -/
def ingest (filter_type : Option String) (st : AggState) (raw : String) : AggState :=
  match parseAccepted filter_type raw with
  | none => st
  | some r => applyRecord st r

/-- The whole reading loop: fold `ingest` over the lines of the file. -/
def processLines (filter_type : Option String) (lines : List String) : AggState :=
  lines.foldl (ingest filter_type) initState

/-- The records of `lines` that survive every skip condition, in order. -/
def acceptedRecords (filter_type : Option String) (lines : List String) : List Record :=
  lines.filterMap (parseAccepted filter_type)

/-- Round to the nearest integer, halves to even: the behaviour of Python's
built-in `round` on exact values. -/
def rndHalfEven (q : ℚ) : ℤ :=
  let n := ⌊q⌋
  let r := q - n
  if r < 1/2 then n
  else if 1/2 < r then n + 1
  else if 2 ∣ n then n else n + 1

/-- Python's `round(x, 1)` on exact values: one decimal place,
halves to even. -/
def round1 (q : ℚ) : ℚ :=
  (rndHalfEven (10 * q) : ℚ) / 10

/-- The report returned by `compute_stats_from_gff`.  The optional
`filter_type` entry of the Python dict is an `Option` field: `some X` models
the key being present with value `X`, `none` models its absence. -/
structure StatisticsReport where
  total_features : Int
  by_type : List (String × Int)
  avg_length : List (String × ℚ)
  strand_distribution : List (String × Int)
  filter_type : Option String
  deriving Repr, DecidableEq

/-- The aggregate computations after the reading loop:
`avg_length = {k: round(length_sums[k] / counts[k], 1) for k in counts} if counts else {}`,
`total_strands = sum(v for k, v in strand_counts.items() if k in ("+", "-"))`
(written via `alGet` at `"+"` and `"-"`, which is the same sum because dict
keys are unique), the strand percentages
`int(round(100 * strand_counts.get(s, 0) / total_strands))` (or 0/0 when
`total_strands` is falsy), the result dict, and
`if filter_type: result["filter_type"] = filter_type`. -/
def finalize (filter_type : Option String) (st : AggState) : StatisticsReport :=
  let avg_length : List (String × ℚ) :=
    if st.counts = [] then []
    else st.counts.map fun p =>
      (p.1, round1 ((alGet st.length_sums p.1 : ℚ) / (alGet st.counts p.1 : ℚ)))
  let total_strands : Int := alGet st.strand_counts "+" + alGet st.strand_counts "-"
  let strand_distribution : List (String × Int) :=
    if total_strands ≠ 0 then
      [("+", rndHalfEven (100 * (alGet st.strand_counts "+" : ℚ) / (total_strands : ℚ))),
       ("-", rndHalfEven (100 * (alGet st.strand_counts "-" : ℚ) / (total_strands : ℚ)))]
    else
      [("+", 0), ("-", 0)]
  { total_features := st.total
    by_type := st.counts
    avg_length := avg_length
    strand_distribution := strand_distribution
    filter_type := if filterActive filter_type then filter_type else none }

/-- `compute_stats_from_gff`, with the opened file replaced by the list of its
lines: run the reading loop, then finalize. -/
def compute_stats_from_gff (lines : List String) (filter_type : Option String := none) :
    StatisticsReport :=
  finalize filter_type (processLines filter_type lines)

/-! Spec-side record statistics, used to state the claims. -/

/-- The accepted records of category `k`. -/
def catRecords (rs : List Record) (k : String) : List Record :=
  rs.filter fun r => r.feature_type = k

/-- Number of accepted records of category `k`. -/
def catCount (rs : List Record) (k : String) : Int :=
  ((catRecords rs k).length : Int)

/-- Sum of the lengths (`end - start + 1`) of the accepted records of
category `k`. -/
def catLenSum (rs : List Record) (k : String) : Int :=
  ((catRecords rs k).map recordLength).sum

/-- Number of accepted records whose strand is exactly `s`. -/
def strandCount (rs : List Record) (s : String) : Int :=
  ((rs.filter fun r => r.strand = s).length : Int)

/-- What a list of accepted records contributes to the strand tally at key
`k`: the records with strand `k` when `k` is `+` or `-`, nothing otherwise. -/
def strandContrib (rs : List Record) (k : String) : Int :=
  if k = "+" ∨ k = "-" then strandCount rs k else 0

/-! ### Association-list lemmas -/

theorem alGet_nil (k : String) : alGet [] k = 0 := rfl

theorem alGet_cons (p : String × Int) (rest : List (String × Int)) (k : String) :
    alGet (p :: rest) k = if p.1 = k then p.2 else alGet rest k := by
  by_cases h : p.1 = k <;> simp [alGet, alFind?, h]

theorem alGet_alIncr_self (d : List (String × Int)) (k : String) (v : Int) :
    alGet (alIncr d k v) k = alGet d k + v := by
  induction d with
  | nil => simp [alIncr, alGet_cons, alGet_nil]
  | cons p rest ih =>
      by_cases h : p.1 = k
      · simp [alIncr, h, alGet_cons]
      · simp [alIncr, h, alGet_cons, ih]

theorem alGet_alIncr_ne (d : List (String × Int)) {k k' : String} (h : k' ≠ k) (v : Int) :
    alGet (alIncr d k v) k' = alGet d k' := by
  induction d with
  | nil =>
      simp only [alIncr, alGet_cons, alGet_nil]
      rw [if_neg fun he => h he.symm]
  | cons p rest ih =>
      by_cases hp : p.1 = k
      · have hkk : ¬ (k = k') := fun he => h he.symm
        simp [alIncr, hp, alGet_cons, hkk]
      · simp [alIncr, hp, alGet_cons, ih]

theorem alGet_alSetdefault_zero (d : List (String × Int)) (k k' : String) :
    alGet (alSetdefault d k 0) k' = alGet d k' := by
  induction d with
  | nil =>
      by_cases h : k = k' <;> simp [alSetdefault, alGet_cons, alGet_nil, h]
  | cons p rest ih =>
      by_cases hp : p.1 = k
      · simp [alSetdefault, hp, alGet_cons]
      · simp [alSetdefault, hp, alGet_cons, ih]

theorem alValuesSum_alIncr (d : List (String × Int)) (k : String) (v : Int) :
    alValuesSum (alIncr d k v) = alValuesSum d + v := by
  induction d with
  | nil => simp [alIncr, alValuesSum]
  | cons p rest ih =>
      by_cases h : p.1 = k
      · simp only [alIncr, if_pos h, alValuesSum, List.map_cons, List.sum_cons]
        ring
      · simp only [alIncr, if_neg h, alValuesSum, List.map_cons, List.sum_cons] at *
        rw [ih]
        ring

theorem mem_alKeys_alIncr {d : List (String × Int)} {k v k'} :
    k' ∈ alKeys (alIncr d k v) ↔ k' ∈ alKeys d ∨ k' = k := by
  induction d with
  | nil => simp [alIncr, alKeys]
  | cons p rest ih =>
      by_cases h : p.1 = k
      · simp only [alIncr, if_pos h, alKeys, List.map_cons, List.mem_cons]
        rw [h]
        tauto
      · simp only [alIncr, if_neg h, alKeys, List.map_cons, List.mem_cons] at *
        rw [ih]
        tauto

theorem alFind?_eq_some_of_alGet_ne_zero {d : List (String × Int)} {k : String}
    (h : alGet d k ≠ 0) : alFind? d k = some (alGet d k) := by
  induction d with
  | nil => simp [alGet_nil] at h
  | cons p rest ih =>
      by_cases hp : p.1 = k
      · simp [alGet_cons, alFind?, hp]
      · simp only [alGet_cons, if_neg hp] at h ⊢
        simp only [alFind?, if_neg hp]
        exact ih h

theorem alFind?_map_snd {α : Type} (d : List (String × Int)) (f : String → α) (k : String) :
    alFind? (d.map fun p => (p.1, f p.1)) k = (alFind? d k).map fun _ => f k := by
  induction d with
  | nil => simp [alFind?]
  | cons p rest ih =>
      by_cases hp : p.1 = k
      · subst hp
        simp [alFind?]
      · simp [alFind?, hp, ih]

theorem alKeys_map_snd {α : Type} (d : List (String × Int)) (f : String → α) :
    alKeys (d.map fun p => (p.1, f p.1)) = alKeys d := by
  simp [alKeys, List.map_map]

/-! ### Cons lemmas for the spec-side statistics -/

theorem acceptedRecords_cons (ft : Option String) (l : String) (t : List String) :
    acceptedRecords ft (l :: t) =
      match parseAccepted ft l with
      | none => acceptedRecords ft t
      | some r => r :: acceptedRecords ft t := by
  cases h : parseAccepted ft l <;> simp [acceptedRecords, List.filterMap_cons, h]

theorem catCount_cons (r : Record) (rs : List Record) (k : String) :
    catCount (r :: rs) k = catCount rs k + (if r.feature_type = k then 1 else 0) := by
  by_cases h : r.feature_type = k
  · simp [catCount, catRecords, List.filter_cons, h]
  · simp [catCount, catRecords, List.filter_cons, h]

theorem catLenSum_cons (r : Record) (rs : List Record) (k : String) :
    catLenSum (r :: rs) k = catLenSum rs k + (if r.feature_type = k then recordLength r else 0) := by
  by_cases h : r.feature_type = k
  · simp [catLenSum, catRecords, List.filter_cons, h]
    ring
  · simp [catLenSum, catRecords, List.filter_cons, h]

theorem strandCount_cons (r : Record) (rs : List Record) (s : String) :
    strandCount (r :: rs) s = strandCount rs s + (if r.strand = s then 1 else 0) := by
  by_cases h : r.strand = s
  · simp [strandCount, List.filter_cons, h]
  · simp [strandCount, List.filter_cons, h]

theorem strandContrib_cons (r : Record) (rs : List Record) (k : String) :
    strandContrib (r :: rs) k
      = strandContrib rs k + (if r.strand = k ∧ (k = "+" ∨ k = "-") then 1 else 0) := by
  by_cases hk : k = "+" ∨ k = "-"
  · simp only [strandContrib, if_pos hk, strandCount_cons]
    by_cases hs : r.strand = k
    · rw [if_pos hs, if_pos ⟨hs, hk⟩]
    · rw [if_neg hs, if_neg fun hc => hs hc.1]
  · simp only [strandContrib, if_neg hk]
    rw [if_neg fun hc => hk hc.2]
    ring

/-! ### The aggregate state as a function of the accepted records -/

theorem alGet_applyRecord_strand (st : AggState) (r : Record) (k : String) :
    alGet (applyRecord st r).strand_counts k
      = alGet st.strand_counts k + (if r.strand = k ∧ (k = "+" ∨ k = "-") then 1 else 0) := by
  unfold applyRecord
  by_cases hs : r.strand = "+" ∨ r.strand = "-"
  · simp only [if_pos hs]
    by_cases hk : r.strand = k
    · subst hk
      rw [alGet_alIncr_self, if_pos ⟨rfl, hs⟩]
    · rw [alGet_alIncr_ne _ fun he => hk he.symm, if_neg fun hc => hk hc.1, add_zero]
  · simp only [if_neg hs]
    have hc : ¬ (r.strand = k ∧ (k = "+" ∨ k = "-")) := by
      rintro ⟨h1, h2⟩
      exact hs (by rw [h1]; exact h2)
    rw [alGet_alSetdefault_zero, if_neg hc, add_zero]

theorem foldl_ingest_total (ft : Option String) :
    ∀ (lines : List String) (st : AggState),
      (lines.foldl (ingest ft) st).total
        = st.total + ((acceptedRecords ft lines).length : Int) := by
  intro lines
  induction lines with
  | nil => intro st; simp [acceptedRecords]
  | cons l t ih =>
      intro st
      simp only [List.foldl_cons]
      rw [ih, acceptedRecords_cons]
      cases h : parseAccepted ft l with
      | none => simp [ingest, h]
      | some r =>
          simp only [ingest, h, applyRecord, List.length_cons]
          push_cast
          ring

theorem foldl_ingest_counts (ft : Option String) (k : String) :
    ∀ (lines : List String) (st : AggState),
      alGet (lines.foldl (ingest ft) st).counts k
        = alGet st.counts k + catCount (acceptedRecords ft lines) k := by
  intro lines
  induction lines with
  | nil => intro st; simp [acceptedRecords, catCount, catRecords]
  | cons l t ih =>
      intro st
      simp only [List.foldl_cons]
      rw [ih, acceptedRecords_cons]
      cases h : parseAccepted ft l with
      | none => simp [ingest, h]
      | some r =>
          simp only [ingest, h, applyRecord, catCount_cons]
          by_cases hk : r.feature_type = k
          · subst hk
            rw [alGet_alIncr_self, if_pos rfl]
            ring
          · rw [alGet_alIncr_ne _ fun he => hk he.symm, if_neg hk]
            ring

theorem foldl_ingest_length_sums (ft : Option String) (k : String) :
    ∀ (lines : List String) (st : AggState),
      alGet (lines.foldl (ingest ft) st).length_sums k
        = alGet st.length_sums k + catLenSum (acceptedRecords ft lines) k := by
  intro lines
  induction lines with
  | nil => intro st; simp [acceptedRecords, catLenSum, catRecords]
  | cons l t ih =>
      intro st
      simp only [List.foldl_cons]
      rw [ih, acceptedRecords_cons]
      cases h : parseAccepted ft l with
      | none => simp [ingest, h]
      | some r =>
          simp only [ingest, h, applyRecord, catLenSum_cons]
          by_cases hk : r.feature_type = k
          · subst hk
            rw [alGet_alIncr_self, if_pos rfl]
            ring
          · rw [alGet_alIncr_ne _ fun he => hk he.symm, if_neg hk]
            ring

theorem foldl_ingest_strand (ft : Option String) (k : String) :
    ∀ (lines : List String) (st : AggState),
      alGet (lines.foldl (ingest ft) st).strand_counts k
        = alGet st.strand_counts k + strandContrib (acceptedRecords ft lines) k := by
  intro lines
  induction lines with
  | nil => intro st; simp [acceptedRecords, strandContrib, strandCount]
  | cons l t ih =>
      intro st
      simp only [List.foldl_cons]
      rw [ih, acceptedRecords_cons]
      cases h : parseAccepted ft l with
      | none => simp [ingest, h]
      | some r =>
          simp only [ingest, h, strandContrib_cons, alGet_applyRecord_strand]
          ring

theorem foldl_ingest_counts_sum (ft : Option String) :
    ∀ (lines : List String) (st : AggState),
      alValuesSum (lines.foldl (ingest ft) st).counts
        = alValuesSum st.counts + ((acceptedRecords ft lines).length : Int) := by
  intro lines
  induction lines with
  | nil => intro st; simp [acceptedRecords]
  | cons l t ih =>
      intro st
      simp only [List.foldl_cons]
      rw [ih, acceptedRecords_cons]
      cases h : parseAccepted ft l with
      | none => simp [ingest, h]
      | some r =>
          simp only [ingest, h, applyRecord, alValuesSum_alIncr, List.length_cons]
          push_cast
          ring

theorem foldl_ingest_counts_keys (ft : Option String) (k : String) :
    ∀ (lines : List String) (st : AggState),
      k ∈ alKeys (lines.foldl (ingest ft) st).counts →
        k ∈ alKeys st.counts ∨ k ∈ (acceptedRecords ft lines).map Record.feature_type := by
  intro lines
  induction lines with
  | nil => intro st h; simp only [List.foldl_nil] at h; exact Or.inl h
  | cons l t ih =>
      intro st h
      simp only [List.foldl_cons] at h
      rw [acceptedRecords_cons]
      cases hp : parseAccepted ft l with
      | none =>
          simp only [hp]
          simpa [ingest, hp] using ih (ingest ft st l) (by simpa [ingest, hp] using h)
      | some r =>
          rcases ih (ingest ft st l) h with hin | hin
          · simp only [ingest, hp, applyRecord] at hin
            rcases mem_alKeys_alIncr.mp hin with hin' | hin'
            · exact Or.inl hin'
            · simp [hp, hin']
          · simp [hp, hin]

/-- The processed total is the number of accepted records. -/
theorem processLines_total (ft : Option String) (lines : List String) :
    (processLines ft lines).total = ((acceptedRecords ft lines).length : Int) := by
  simpa [initState] using foldl_ingest_total ft lines initState

/-- The processed counts dict reads back the per-category record count. -/
theorem processLines_counts (ft : Option String) (lines : List String) (k : String) :
    alGet (processLines ft lines).counts k = catCount (acceptedRecords ft lines) k := by
  simpa [initState, alGet_nil] using foldl_ingest_counts ft k lines initState

/-- The processed length-sum dict reads back the per-category length sum. -/
theorem processLines_length_sums (ft : Option String) (lines : List String) (k : String) :
    alGet (processLines ft lines).length_sums k = catLenSum (acceptedRecords ft lines) k := by
  simpa [initState, alGet_nil] using foldl_ingest_length_sums ft k lines initState

/-- The processed strand tally reads back the strand contribution. -/
theorem processLines_strand (ft : Option String) (lines : List String) (k : String) :
    alGet (processLines ft lines).strand_counts k
      = strandContrib (acceptedRecords ft lines) k := by
  simpa [initState, alGet_nil] using foldl_ingest_strand ft k lines initState

theorem processLines_strand_plus (ft : Option String) (lines : List String) :
    alGet (processLines ft lines).strand_counts "+"
      = strandCount (acceptedRecords ft lines) "+" := by
  rw [processLines_strand]
  unfold strandContrib
  rw [if_pos (Or.inl rfl)]

theorem processLines_strand_minus (ft : Option String) (lines : List String) :
    alGet (processLines ft lines).strand_counts "-"
      = strandCount (acceptedRecords ft lines) "-" := by
  rw [processLines_strand]
  unfold strandContrib
  rw [if_pos (Or.inr rfl)]

theorem processLines_counts_sum (ft : Option String) (lines : List String) :
    alValuesSum (processLines ft lines).counts
      = ((acceptedRecords ft lines).length : Int) := by
  simpa [initState, alValuesSum] using foldl_ingest_counts_sum ft lines initState

theorem processLines_counts_keys (ft : Option String) (lines : List String) (k : String)
    (h : k ∈ alKeys (processLines ft lines).counts) :
    k ∈ (acceptedRecords ft lines).map Record.feature_type := by
  rcases foldl_ingest_counts_keys ft k lines initState h with hin | hin
  · simp [initState, alKeys] at hin
  · exact hin

/-! ### The category filter, relative to an unfiltered run -/

/-- Running the line parser with any filter configuration is the unfiltered
parse followed by the filter test (the filter test precedes the integer
parse in the source, but a record rejected by either is rejected by both
orders). -/
theorem parseAccepted_filter_eq (ft : Option String) (raw : String) :
    parseAccepted ft raw =
      match parseAccepted none raw with
      | some r => if filterActive ft ∧ r.feature_type ≠ ft.getD "" then none else some r
      | none => none := by
  unfold parseAccepted
  by_cases h1 : pyStrip raw.data = [] ∨ (pyStrip raw.data).headD ' ' = '#'
  · rw [if_pos h1, if_pos h1]
  · rw [if_neg h1, if_neg h1]
    by_cases h2 : (splitTab (pyStrip raw.data)).length < 9
    · rw [if_pos h2, if_pos h2]
    · rw [if_neg h2, if_neg h2]
      have hnone : ¬ ((filterActive none : Prop)
          ∧ String.mk ((splitTab (pyStrip raw.data)).getD 2 []) ≠ (none : Option String).getD "") := by
        simp [filterActive]
      rw [if_neg hnone]
      by_cases h3 : (filterActive ft : Prop)
          ∧ String.mk ((splitTab (pyStrip raw.data)).getD 2 []) ≠ ft.getD ""
      · rw [if_pos h3]
        cases hp3 : pyToInt ((splitTab (pyStrip raw.data)).getD 3 []) with
        | none => simp [hp3]
        | some s =>
            cases hp4 : pyToInt ((splitTab (pyStrip raw.data)).getD 4 []) with
            | none => simp [hp3, hp4]
            | some e =>
                simp only [hp3, hp4]
                rw [if_pos h3]
      · rw [if_neg h3]
        cases hp3 : pyToInt ((splitTab (pyStrip raw.data)).getD 3 []) with
        | none => simp [hp3]
        | some s =>
            cases hp4 : pyToInt ((splitTab (pyStrip raw.data)).getD 4 []) with
            | none => simp [hp3, hp4]
            | some e =>
                simp only [hp3, hp4]
                rw [if_neg h3]

/-- An empty filter string is falsy in Python, so it parses exactly like no
filter at all. -/
theorem parseAccepted_empty_filter (raw : String) :
    parseAccepted (some "") raw = parseAccepted none raw := by
  rw [parseAccepted_filter_eq]
  cases parseAccepted none raw with
  | none => rfl
  | some r => simp [filterActive]

/-- With an active (non-empty) filter `X`, a line parses to `r` exactly when
it parses unfiltered to `r` and `r` has category `X`. -/
theorem parseAccepted_active_filter {X : String} (hX : X ≠ "") (raw : String) :
    parseAccepted (some X) raw =
      match parseAccepted none raw with
      | some r => if r.feature_type = X then some r else none
      | none => none := by
  rw [parseAccepted_filter_eq]
  cases parseAccepted none raw with
  | none => rfl
  | some r =>
      have hact : (filterActive (some X) : Prop) := by simp [filterActive, hX]
      by_cases hr : r.feature_type = X
      · simp [hact, hr]
      · simp [hact, hr]

theorem acceptedRecords_empty_filter (lines : List String) :
    acceptedRecords (some "") lines = acceptedRecords none lines := by
  induction lines with
  | nil => rfl
  | cons l t ih =>
      rw [acceptedRecords_cons, acceptedRecords_cons, parseAccepted_empty_filter, ih]

theorem acceptedRecords_active_filter {X : String} (hX : X ≠ "") (lines : List String) :
    acceptedRecords (some X) lines
      = (acceptedRecords none lines).filter fun r => r.feature_type = X := by
  induction lines with
  | nil => rfl
  | cons l t ih =>
      rw [acceptedRecords_cons, acceptedRecords_cons, parseAccepted_active_filter hX]
      cases h : parseAccepted none l with
      | none => simpa using ih
      | some r =>
          by_cases hr : r.feature_type = X
          · simp [hr, List.filter_cons, ih]
          · simp [hr, List.filter_cons, ih]

theorem ingest_empty_filter (st : AggState) (raw : String) :
    ingest (some "") st raw = ingest none st raw := by
  unfold ingest
  rw [parseAccepted_empty_filter]

theorem processLines_empty_filter (lines : List String) :
    processLines (some "") lines = processLines none lines := by
  unfold processLines
  generalize initState = st
  induction lines generalizing st with
  | nil => rfl
  | cons l t ih =>
      simp only [List.foldl_cons]
      rw [ingest_empty_filter]
      exact ih _

/-! ### Shape of the finalized report -/

theorem finalize_total (ft : Option String) (st : AggState) :
    (finalize ft st).total_features = st.total := rfl

theorem finalize_by_type (ft : Option String) (st : AggState) :
    (finalize ft st).by_type = st.counts := rfl

theorem finalize_avg_length (ft : Option String) (st : AggState) :
    (finalize ft st).avg_length
      = if st.counts = [] then []
        else st.counts.map fun p =>
          (p.1, round1 ((alGet st.length_sums p.1 : ℚ) / (alGet st.counts p.1 : ℚ))) := rfl

theorem finalize_strand_distribution (ft : Option String) (st : AggState) :
    (finalize ft st).strand_distribution
      = if alGet st.strand_counts "+" + alGet st.strand_counts "-" ≠ 0 then
          [("+", rndHalfEven (100 * (alGet st.strand_counts "+" : ℚ)
              / ((alGet st.strand_counts "+" + alGet st.strand_counts "-" : Int) : ℚ))),
           ("-", rndHalfEven (100 * (alGet st.strand_counts "-" : ℚ)
              / ((alGet st.strand_counts "+" + alGet st.strand_counts "-" : Int) : ℚ)))]
        else [("+", 0), ("-", 0)] := rfl

theorem finalize_filter_type (ft : Option String) (st : AggState) :
    (finalize ft st).filter_type = if filterActive ft then ft else none := rfl

theorem compute_stats_eq_finalize (lines : List String) (ft : Option String) :
    compute_stats_from_gff lines ft = finalize ft (processLines ft lines) := rfl

theorem alFind?_avg_map (st : AggState) (k : String) :
    alFind? (st.counts.map fun p =>
        (p.1, round1 ((alGet st.length_sums p.1 : ℚ) / (alGet st.counts p.1 : ℚ)))) k
      = (alFind? st.counts k).map fun _ =>
          round1 ((alGet st.length_sums k : ℚ) / (alGet st.counts k : ℚ)) :=
  alFind?_map_snd st.counts
    (fun k0 => round1 ((alGet st.length_sums k0 : ℚ) / (alGet st.counts k0 : ℚ))) k

theorem alKeys_avg_map (st : AggState) :
    alKeys (st.counts.map fun p =>
        (p.1, round1 ((alGet st.length_sums p.1 : ℚ) / (alGet st.counts p.1 : ℚ))))
      = alKeys st.counts :=
  alKeys_map_snd st.counts
    (fun k0 => round1 ((alGet st.length_sums k0 : ℚ) / (alGet st.counts k0 : ℚ)))

theorem StatisticsReport_ext {r1 r2 : StatisticsReport}
    (h1 : r1.total_features = r2.total_features) (h2 : r1.by_type = r2.by_type)
    (h3 : r1.avg_length = r2.avg_length)
    (h4 : r1.strand_distribution = r2.strand_distribution)
    (h5 : r1.filter_type = r2.filter_type) : r1 = r2 := by
  cases r1
  cases r2
  simp_all

/-! ### Bounds on round-half-to-even -/

theorem rndHalfEven_nonneg {q : ℚ} (h : 0 ≤ q) : 0 ≤ rndHalfEven q := by
  unfold rndHalfEven
  dsimp only
  have hf : 0 ≤ ⌊q⌋ := Int.floor_nonneg.mpr h
  split_ifs <;> omega

theorem rndHalfEven_le {q : ℚ} {n : ℤ} (h : q ≤ (n : ℚ)) : rndHalfEven q ≤ n := by
  unfold rndHalfEven
  dsimp only
  have hf : ⌊q⌋ ≤ n := by
    have := Int.floor_le_floor h
    simpa using this
  have hfl : (⌊q⌋ : ℚ) ≤ q := Int.floor_le q
  split_ifs with h1 h2 h3
  · exact hf
  · by_contra hc
    push_neg at hc
    have hn : n = ⌊q⌋ := le_antisymm hf (by omega) |>.symm
    rw [hn] at h
    linarith
  · exact hf
  · by_contra hc
    push_neg at hc
    have hn : n = ⌊q⌋ := le_antisymm hf (by omega) |>.symm
    rw [hn] at h
    have hr : (1:ℚ)/2 ≤ q - ⌊q⌋ := not_lt.mp h1
    linarith

theorem rndHalfEven_pct_bounds {a b : ℤ} (ha : 0 ≤ a) (hab : a ≤ b) (hb : 0 < b) :
    0 ≤ rndHalfEven (100 * (a : ℚ) / (b : ℚ))
      ∧ rndHalfEven (100 * (a : ℚ) / (b : ℚ)) ≤ 100 := by
  have hbq : (0:ℚ) < (b:ℚ) := by exact_mod_cast hb
  have haq : (0:ℚ) ≤ (a:ℚ) := by exact_mod_cast ha
  have habq : (a:ℚ) ≤ (b:ℚ) := by exact_mod_cast hab
  have hq0 : 0 ≤ 100 * (a:ℚ) / (b:ℚ) := by positivity
  have hq100 : 100 * (a:ℚ) / (b:ℚ) ≤ ((100 : ℤ) : ℚ) := by
    rw [div_le_iff₀ hbq]
    push_cast
    linarith
  exact ⟨rndHalfEven_nonneg hq0, rndHalfEven_le hq100⟩

theorem catCount_pos {rs : List Record} {k : String}
    (h : k ∈ rs.map Record.feature_type) : 0 < catCount rs k := by
  rcases List.mem_map.mp h with ⟨r, hr, hk⟩
  have hmem : r ∈ rs.filter fun r => r.feature_type = k :=
    List.mem_filter.mpr ⟨hr, by simp [hk]⟩
  have hlen : 0 < (rs.filter fun r => (r.feature_type = k : Bool)).length :=
    List.length_pos.mpr (List.ne_nil_of_mem hmem)
  unfold catCount catRecords
  exact_mod_cast hlen

theorem strandCount_nonneg (rs : List Record) (s : String) : 0 ≤ strandCount rs s := by
  unfold strandCount
  positivity

/-! ### The claims -/

/-- C1: for every run configuration and every input whose accepted records
include category `k`, the report's `avg_length` maps `k` to the sum of the
lengths (`end - start + 1`) of the accepted records of category `k`, divided
by their count, rounded to one decimal place (half to even, Python's
`round(x, 1)`). -/
theorem C1_avg_length_correct (ft : Option String) (lines : List String) (k : String)
    (h : k ∈ (acceptedRecords ft lines).map Record.feature_type) :
    alFind? (compute_stats_from_gff lines ft).avg_length k
      = some (round1 ((catLenSum (acceptedRecords ft lines) k : ℚ)
          / (catCount (acceptedRecords ft lines) k : ℚ))) := by
  have hpos := catCount_pos h
  have hget := processLines_counts ft lines k
  have hne : alGet (processLines ft lines).counts k ≠ 0 := by
    rw [hget]
    exact ne_of_gt hpos
  have hfind := alFind?_eq_some_of_alGet_ne_zero hne
  have hcne : (processLines ft lines).counts ≠ [] := by
    intro hc
    rw [hc] at hfind
    simp [alFind?] at hfind
  rw [compute_stats_eq_finalize, finalize_avg_length, if_neg hcne, alFind?_avg_map, hfind]
  simp only [Option.map_some']
  rw [hget, processLines_length_sums]

/-- Witness for C1 at a concrete one-line input of category `gene`. -/
theorem C1_avg_length_correct_witness :
    ("gene" ∈ (acceptedRecords none ["chr1\tsrc\tgene\t1\t900\t.\t+\t.\tid=g1"]).map
        Record.feature_type)
    ∧ alFind?
        (compute_stats_from_gff ["chr1\tsrc\tgene\t1\t900\t.\t+\t.\tid=g1"] none).avg_length
        "gene"
      = some (round1
          ((catLenSum (acceptedRecords none ["chr1\tsrc\tgene\t1\t900\t.\t+\t.\tid=g1"]) "gene" : ℚ)
            / (catCount (acceptedRecords none ["chr1\tsrc\tgene\t1\t900\t.\t+\t.\tid=g1"]) "gene" : ℚ))) :=
  ⟨by decide, C1_avg_length_correct none ["chr1\tsrc\tgene\t1\t900\t.\t+\t.\tid=g1"] "gene" (by decide)⟩

/-- C2: for every input and every filter configuration, the report's
`total_features` equals the sum of the values of `by_type`. -/
theorem C2_total_features_eq_sum_by_type (ft : Option String) (lines : List String) :
    (compute_stats_from_gff lines ft).total_features
      = alValuesSum (compute_stats_from_gff lines ft).by_type := by
  rw [compute_stats_eq_finalize, finalize_total, finalize_by_type,
    processLines_total, processLines_counts_sum]

/-- C3 counterexample: with the empty filter string configured
(`filter_type = some ""`), the report's `by_type` keeps a key (`"gene"`)
different from the filter string, and the report carries no `filter_type`
entry even though a filter string was supplied, so the claim fails at
`X = ""`. -/
theorem C3_counterexample_empty_string :
    (compute_stats_from_gff ["a\tb\tgene\t1\t2\t.\t+\t.\tx"] (some "")).by_type = [("gene", 1)]
    ∧ ¬ ("gene" = "")
    ∧ (compute_stats_from_gff ["a\tb\tgene\t1\t2\t.\t+\t.\tx"] (some "")).filter_type = none :=
  ⟨by decide, by decide, by decide⟩

/-- C3 (amended): for every NON-EMPTY filter string `X` and every input,
running with `filter_type = X` yields a report whose `by_type` has at most the
single key `X`, whose `total_features` counts exactly the accepted records of
category `X`, and which contains `filter_type = X`; the `filter_type` entry is
absent when no filter is configured.  (The original claim fails only for the
empty filter string, which Python truthiness treats as no filter; see the
counterexample.) -/
theorem C3_active_filter_restricts (X : String) (lines : List String) (hX : X ≠ "") :
    (∀ k ∈ alKeys (compute_stats_from_gff lines (some X)).by_type, k = X)
    ∧ (compute_stats_from_gff lines (some X)).total_features
        = catCount (acceptedRecords none lines) X
    ∧ (compute_stats_from_gff lines (some X)).filter_type = some X
    ∧ (compute_stats_from_gff lines none).filter_type = none := by
  have hact : (filterActive (some X) : Prop) := by simp [filterActive, hX]
  refine ⟨?_, ?_, ?_, rfl⟩
  · intro k hk
    rw [compute_stats_eq_finalize, finalize_by_type] at hk
    have hacc := processLines_counts_keys (some X) lines k hk
    rw [acceptedRecords_active_filter hX] at hacc
    rcases List.mem_map.mp hacc with ⟨r, hr, hkr⟩
    have hrX : r.feature_type = X := by simpa using (List.mem_filter.mp hr).2
    rw [← hkr, hrX]
  · rw [compute_stats_eq_finalize, finalize_total, processLines_total,
      acceptedRecords_active_filter hX]
    rfl
  · rw [compute_stats_eq_finalize, finalize_filter_type, if_pos hact]

/-- Witness for C3 with the filter `CDS` on a two-line input. -/
theorem C3_active_filter_restricts_witness :
    (("CDS" : String) ≠ "")
    ∧ ((∀ k ∈ alKeys (compute_stats_from_gff
          ["a\tb\tgene\t1\t2\t.\t+\t.\tx", "a\tb\tCDS\t1\t2\t.\t-\t.\tx"] (some "CDS")).by_type,
          k = "CDS")
      ∧ (compute_stats_from_gff
          ["a\tb\tgene\t1\t2\t.\t+\t.\tx", "a\tb\tCDS\t1\t2\t.\t-\t.\tx"] (some "CDS")).total_features
          = catCount (acceptedRecords none
              ["a\tb\tgene\t1\t2\t.\t+\t.\tx", "a\tb\tCDS\t1\t2\t.\t-\t.\tx"]) "CDS"
      ∧ (compute_stats_from_gff
          ["a\tb\tgene\t1\t2\t.\t+\t.\tx", "a\tb\tCDS\t1\t2\t.\t-\t.\tx"] (some "CDS")).filter_type
          = some "CDS"
      ∧ (compute_stats_from_gff
          ["a\tb\tgene\t1\t2\t.\t+\t.\tx", "a\tb\tCDS\t1\t2\t.\t-\t.\tx"] none).filter_type
          = none) :=
  ⟨by decide, C3_active_filter_restricts "CDS"
    ["a\tb\tgene\t1\t2\t.\t+\t.\tx", "a\tb\tCDS\t1\t2\t.\t-\t.\tx"] (by decide)⟩

/-- C4: for every input, `strand_distribution` has exactly the keys `+` and
`-`, both between 0 and 100; when the count of accepted `+` records plus the
count of accepted `-` records is positive each value is
`round(100 * count / total)` (strands other than `+`/`-` never enter the
denominator), and when that total is zero both values are 0. -/
theorem C4_strand_distribution_correct (ft : Option String) (lines : List String) :
    alKeys (compute_stats_from_gff lines ft).strand_distribution = ["+", "-"]
    ∧ (∀ pr ∈ (compute_stats_from_gff lines ft).strand_distribution, 0 ≤ pr.2 ∧ pr.2 ≤ 100)
    ∧ (0 < strandCount (acceptedRecords ft lines) "+"
          + strandCount (acceptedRecords ft lines) "-" →
        (compute_stats_from_gff lines ft).strand_distribution
          = [("+", rndHalfEven (100 * (strandCount (acceptedRecords ft lines) "+" : ℚ)
                / ((strandCount (acceptedRecords ft lines) "+"
                    + strandCount (acceptedRecords ft lines) "-" : Int) : ℚ))),
             ("-", rndHalfEven (100 * (strandCount (acceptedRecords ft lines) "-" : ℚ)
                / ((strandCount (acceptedRecords ft lines) "+"
                    + strandCount (acceptedRecords ft lines) "-" : Int) : ℚ)))])
    ∧ (strandCount (acceptedRecords ft lines) "+"
          + strandCount (acceptedRecords ft lines) "-" = 0 →
        (compute_stats_from_gff lines ft).strand_distribution = [("+", 0), ("-", 0)]) := by
  have hsd := finalize_strand_distribution ft (processLines ft lines)
  rw [processLines_strand_plus, processLines_strand_minus] at hsd
  rw [compute_stats_eq_finalize, hsd]
  set p := strandCount (acceptedRecords ft lines) "+" with hpdef
  set m := strandCount (acceptedRecords ft lines) "-" with hmdef
  have hp0 : 0 ≤ p := strandCount_nonneg _ _
  have hm0 : 0 ≤ m := strandCount_nonneg _ _
  by_cases hts : p + m = 0
  · rw [if_neg (not_not_intro hts)]
    refine ⟨rfl, ?_, fun hpos => absurd hts (by omega), fun _ => rfl⟩
    intro pr hpr
    simp only [List.mem_cons, List.not_mem_nil, or_false] at hpr
    rcases hpr with h | h <;> subst h <;> exact ⟨by norm_num, by norm_num⟩
  · have hpos : 0 < p + m := lt_of_le_of_ne (by omega) (Ne.symm hts)
    rw [if_pos hts]
    refine ⟨rfl, ?_, fun _ => rfl, fun h0 => absurd h0 hts⟩
    intro pr hpr
    have hb1 := rndHalfEven_pct_bounds hp0 (by omega : p ≤ p + m) hpos
    have hb2 := rndHalfEven_pct_bounds hm0 (by omega : m ≤ p + m) hpos
    simp only [List.mem_cons, List.not_mem_nil, or_false] at hpr
    rcases hpr with h | h <;> subst h
    · simpa using hb1
    · simpa using hb2

/-- Witness for C4 on a one-line input with a `+` record. -/
theorem C4_strand_distribution_correct_witness :
    alKeys (compute_stats_from_gff ["a\tb\tgene\t1\t2\t.\t+\t.\tx"] none).strand_distribution
      = ["+", "-"]
    ∧ (0 < strandCount (acceptedRecords none ["a\tb\tgene\t1\t2\t.\t+\t.\tx"]) "+"
        + strandCount (acceptedRecords none ["a\tb\tgene\t1\t2\t.\t+\t.\tx"]) "-")
    ∧ (compute_stats_from_gff ["a\tb\tgene\t1\t2\t.\t+\t.\tx"] none).strand_distribution
        = [("+", rndHalfEven (100 * (strandCount (acceptedRecords none
              ["a\tb\tgene\t1\t2\t.\t+\t.\tx"]) "+" : ℚ)
            / ((strandCount (acceptedRecords none ["a\tb\tgene\t1\t2\t.\t+\t.\tx"]) "+"
                + strandCount (acceptedRecords none ["a\tb\tgene\t1\t2\t.\t+\t.\tx"]) "-" : Int) : ℚ))),
           ("-", rndHalfEven (100 * (strandCount (acceptedRecords none
              ["a\tb\tgene\t1\t2\t.\t+\t.\tx"]) "-" : ℚ)
            / ((strandCount (acceptedRecords none ["a\tb\tgene\t1\t2\t.\t+\t.\tx"]) "+"
                + strandCount (acceptedRecords none ["a\tb\tgene\t1\t2\t.\t+\t.\tx"]) "-" : Int) : ℚ)))] :=
  ⟨(C4_strand_distribution_correct none ["a\tb\tgene\t1\t2\t.\t+\t.\tx"]).1,
   by decide,
   (C4_strand_distribution_correct none ["a\tb\tgene\t1\t2\t.\t+\t.\tx"]).2.2.1 (by decide)⟩

/-- C5: a malformed line — fewer than 9 tab-separated fields after stripping,
or a start or end field that does not parse as an integer — leaves the whole
aggregate state (total, per-category counts, per-category length sums, strand
tally) unchanged; `ingest` is a total function, so no error reaches the
caller (the `ValueError` of `int()` is absorbed by the `except` branch). -/
theorem C5_malformed_lines_skipped (ft : Option String) (st : AggState) (raw : String)
    (h : (splitTab (pyStrip raw.data)).length < 9
       ∨ pyToInt ((splitTab (pyStrip raw.data)).getD 3 []) = none
       ∨ pyToInt ((splitTab (pyStrip raw.data)).getD 4 []) = none) :
    ingest ft st raw = st := by
  unfold ingest
  suffices hp : parseAccepted ft raw = none by rw [hp]
  unfold parseAccepted
  by_cases h1 : pyStrip raw.data = [] ∨ (pyStrip raw.data).headD ' ' = '#'
  · rw [if_pos h1]
  · rw [if_neg h1]
    by_cases h2 : (splitTab (pyStrip raw.data)).length < 9
    · rw [if_pos h2]
    · rw [if_neg h2]
      rcases h with h | h | h
      · exact absurd h h2
      · by_cases h3 : (filterActive ft : Prop)
            ∧ String.mk ((splitTab (pyStrip raw.data)).getD 2 []) ≠ ft.getD ""
        · rw [if_pos h3]
        · rw [if_neg h3, h]
      · by_cases h3 : (filterActive ft : Prop)
            ∧ String.mk ((splitTab (pyStrip raw.data)).getD 2 []) ≠ ft.getD ""
        · rw [if_pos h3]
        · rw [if_neg h3]
          cases hp3 : pyToInt ((splitTab (pyStrip raw.data)).getD 3 []) with
          | none => rfl
          | some s => rw [h]

/-- Witness for C5 on a line with no tabs (1 field). -/
theorem C5_malformed_lines_skipped_witness :
    ((splitTab (pyStrip "not a gff line".data)).length < 9
       ∨ pyToInt ((splitTab (pyStrip "not a gff line".data)).getD 3 []) = none
       ∨ pyToInt ((splitTab (pyStrip "not a gff line".data)).getD 4 []) = none)
    ∧ ingest none initState "not a gff line" = initState :=
  ⟨by decide, C5_malformed_lines_skipped none initState "not a gff line" (by decide)⟩

/-- C6: on the concrete six-record input (gene lengths 900/900, CDS lengths
101/51/101, mRNA length 150, strands 4 `+` and 2 `-`) the report is exactly
total_features 6, by_type gene 2 / CDS 3 / mRNA 1, avg_length gene 900.0 /
CDS 84.3 / mRNA 150.0, strand_distribution + 67 / - 33. -/
theorem C6_concrete_scenario :
    compute_stats_from_gff
      ["chr1\tsrc\tgene\t1\t900\t.\t+\t.\tid=g1",
       "chr1\tsrc\tgene\t1\t900\t.\t-\t.\tid=g2",
       "chr1\tsrc\tCDS\t1\t101\t.\t+\t.\tid=c1",
       "chr1\tsrc\tCDS\t1\t51\t.\t+\t.\tid=c2",
       "chr1\tsrc\tCDS\t1\t101\t.\t-\t.\tid=c3",
       "chr1\tsrc\tmRNA\t1\t150\t.\t+\t.\tid=m1"] none
      = { total_features := 6
          by_type := [("gene", 2), ("CDS", 3), ("mRNA", 1)]
          avg_length := [("gene", 900), ("CDS", 843/10), ("mRNA", 150)]
          strand_distribution := [("+", 67), ("-", 33)]
          filter_type := none } := by
  have hst : processLines none
      ["chr1\tsrc\tgene\t1\t900\t.\t+\t.\tid=g1",
       "chr1\tsrc\tgene\t1\t900\t.\t-\t.\tid=g2",
       "chr1\tsrc\tCDS\t1\t101\t.\t+\t.\tid=c1",
       "chr1\tsrc\tCDS\t1\t51\t.\t+\t.\tid=c2",
       "chr1\tsrc\tCDS\t1\t101\t.\t-\t.\tid=c3",
       "chr1\tsrc\tmRNA\t1\t150\t.\t+\t.\tid=m1"]
      = ⟨6, [("gene", 2), ("CDS", 3), ("mRNA", 1)],
          [("gene", 1800), ("CDS", 253), ("mRNA", 150)], [("+", 4), ("-", 2)]⟩ := by
    decide
  rw [compute_stats_eq_finalize, hst]
  refine StatisticsReport_ext (by decide) (by decide) ?_ ?_ (by decide)
  · rw [finalize_avg_length]
    simp +decide [alGet, alFind?]
    norm_num [round1, rndHalfEven, Int.fract]
  · rw [finalize_strand_distribution]
    simp +decide [alGet, alFind?]
    norm_num [round1, rndHalfEven, Int.fract]

/-- C7: for every input and filter configuration, `by_type` and `avg_length`
have the same key list, and every key comes from the category of an accepted
record of the input, equal to the filter value whenever a filter is active. -/
theorem C7_key_sets (ft : Option String) (lines : List String) :
    alKeys (compute_stats_from_gff lines ft).by_type
      = alKeys (compute_stats_from_gff lines ft).avg_length
    ∧ ∀ k ∈ alKeys (compute_stats_from_gff lines ft).by_type,
        k ∈ (acceptedRecords none lines).map Record.feature_type
          ∧ (filterActive ft = true → some k = ft) := by
  constructor
  · rw [compute_stats_eq_finalize, finalize_by_type, finalize_avg_length]
    by_cases hc : (processLines ft lines).counts = []
    · rw [if_pos hc, hc]
      rfl
    · rw [if_neg hc, alKeys_avg_map]
  · intro k hk
    rw [compute_stats_eq_finalize, finalize_by_type] at hk
    have hacc := processLines_counts_keys ft lines k hk
    cases ft with
    | none =>
        exact ⟨hacc, fun hact => absurd hact (by decide)⟩
    | some X =>
        by_cases hX : X = ""
        · subst hX
          rw [acceptedRecords_empty_filter] at hacc
          exact ⟨hacc, fun hact => absurd hact (by decide)⟩
        · rw [acceptedRecords_active_filter hX] at hacc
          rcases List.mem_map.mp hacc with ⟨r, hr, hkr⟩
          have hrf := List.mem_filter.mp hr
          refine ⟨List.mem_map.mpr ⟨r, hrf.1, hkr⟩, fun _ => ?_⟩
          have hrX : r.feature_type = X := by simpa using hrf.2
          rw [← hkr, hrX]

/-- Witness for C7 on a one-line input, reading off the key `gene`. -/
theorem C7_key_sets_witness :
    alKeys (compute_stats_from_gff ["a\tb\tgene\t1\t2\t.\t+\t.\tx"] none).by_type
      = alKeys (compute_stats_from_gff ["a\tb\tgene\t1\t2\t.\t+\t.\tx"] none).avg_length
    ∧ ("gene" ∈ alKeys (compute_stats_from_gff ["a\tb\tgene\t1\t2\t.\t+\t.\tx"] none).by_type)
    ∧ "gene" ∈ (acceptedRecords none ["a\tb\tgene\t1\t2\t.\t+\t.\tx"]).map Record.feature_type :=
  ⟨(C7_key_sets none ["a\tb\tgene\t1\t2\t.\t+\t.\tx"]).1,
   by decide,
   ((C7_key_sets none ["a\tb\tgene\t1\t2\t.\t+\t.\tx"]).2 "gene" (by decide)).1⟩

/-- C8: any input with zero accepted records finalizes successfully (the
embedding is total) to total_features 0, empty by_type and avg_length, and
strand_distribution `+` 0 / `-` 0. -/
theorem C8_zero_usable_records (ft : Option String) (lines : List String)
    (h : acceptedRecords ft lines = []) :
    (compute_stats_from_gff lines ft).total_features = 0
    ∧ (compute_stats_from_gff lines ft).by_type = []
    ∧ (compute_stats_from_gff lines ft).avg_length = []
    ∧ (compute_stats_from_gff lines ft).strand_distribution = [("+", 0), ("-", 0)] := by
  have hcounts : (processLines ft lines).counts = [] := by
    cases hc : (processLines ft lines).counts with
    | nil => rfl
    | cons p rest =>
        exfalso
        have hmem : p.1 ∈ alKeys (processLines ft lines).counts := by
          rw [hc]
          simp [alKeys]
        have hin := processLines_counts_keys ft lines p.1 hmem
        rw [h] at hin
        simp at hin
  refine ⟨?_, ?_, ?_, ?_⟩
  · rw [compute_stats_eq_finalize, finalize_total, processLines_total, h]
    rfl
  · rw [compute_stats_eq_finalize, finalize_by_type]
    exact hcounts
  · rw [compute_stats_eq_finalize, finalize_avg_length, if_pos hcounts]
  · rw [compute_stats_eq_finalize, finalize_strand_distribution,
      processLines_strand_plus, processLines_strand_minus, h]
    norm_num [strandCount]

/-- Witness for C8 on an input of a comment line, a blank line and a
malformed line. -/
theorem C8_zero_usable_records_witness :
    acceptedRecords none ["# comment", "", "badline"] = []
    ∧ ((compute_stats_from_gff ["# comment", "", "badline"] none).total_features = 0
      ∧ (compute_stats_from_gff ["# comment", "", "badline"] none).by_type = []
      ∧ (compute_stats_from_gff ["# comment", "", "badline"] none).avg_length = []
      ∧ (compute_stats_from_gff ["# comment", "", "badline"] none).strand_distribution
          = [("+", 0), ("-", 0)]) :=
  ⟨by decide, C8_zero_usable_records none ["# comment", "", "badline"] (by decide)⟩

/-- C9: ingestion is a homomorphism for concatenation: for any fixed filter,
the pre-finalization state of `L1 ++ L2` is the elementwise sum (total, and
every key of each dict) of the states of `L1` and `L2`, so partial states
merge by elementwise summation before any rounded metric is computed. -/
theorem C9_concat_homomorphism (ft : Option String) (L1 L2 : List String) :
    (processLines ft (L1 ++ L2)).total
        = (processLines ft L1).total + (processLines ft L2).total
    ∧ (∀ k, alGet (processLines ft (L1 ++ L2)).counts k
        = alGet (processLines ft L1).counts k + alGet (processLines ft L2).counts k)
    ∧ (∀ k, alGet (processLines ft (L1 ++ L2)).length_sums k
        = alGet (processLines ft L1).length_sums k + alGet (processLines ft L2).length_sums k)
    ∧ (∀ k, alGet (processLines ft (L1 ++ L2)).strand_counts k
        = alGet (processLines ft L1).strand_counts k
          + alGet (processLines ft L2).strand_counts k) := by
  have happ : processLines ft (L1 ++ L2) = L2.foldl (ingest ft) (processLines ft L1) := by
    unfold processLines
    rw [List.foldl_append]
  refine ⟨?_, fun k => ?_, fun k => ?_, fun k => ?_⟩
  · rw [happ, foldl_ingest_total ft L2 (processLines ft L1), processLines_total ft L2]
  · rw [happ, foldl_ingest_counts ft k L2 (processLines ft L1), processLines_counts ft L2 k]
  · rw [happ, foldl_ingest_length_sums ft k L2 (processLines ft L1),
      processLines_length_sums ft L2 k]
  · rw [happ, foldl_ingest_strand ft k L2 (processLines ft L1), processLines_strand ft L2 k]

/-- C10: supplying the empty string as the filter behaves exactly like
supplying no filter: the whole report coincides, and it carries no
`filter_type` entry. -/
theorem C10_empty_filter_is_no_filter (lines : List String) :
    compute_stats_from_gff lines (some "") = compute_stats_from_gff lines none
    ∧ (compute_stats_from_gff lines (some "")).filter_type = none := by
  constructor
  · rw [compute_stats_eq_finalize, compute_stats_eq_finalize, processLines_empty_filter]
    exact StatisticsReport_ext rfl rfl rfl rfl (by simp [finalize_filter_type, filterActive])
  · rw [compute_stats_eq_finalize, finalize_filter_type]
    simp [filterActive]

end GffStats
